import Mathlib

/-!
Verification of the queue watcher `docker/scripts/localstack/audit_watch.py`.

The script polls an SQS-compatible queue through the `awslocal` command-line
client, filters messages by sent-timestamp and a process-lifetime seen-set,
and pretty-prints each new message body as JSON (expanding a nested
`details` field).  This file gives a shallow embedding of that script:

* a JSON value type together with executable models of Python's
  `json.loads` and `json.dumps(obj, indent=2)` restricted to the fragment
  the script exchanges (numbers are modelled as integers: bodies with
  fractional, exponent or non-finite numeric literals, and strings with
  lone UTF-16 surrogate escapes, fall outside the model and are treated as
  undecodable — no theorem below depends on those corners);
* `format_event`, `run_aws`, `shouldDisplay` and the watch loop of `main`,
  the latter as an executable transition system over a trace of poll
  responses and interrupt events, which also records every subprocess
  invocation and every output line the script produces.
-/

/-! ### JSON values -/

/-- A JSON value as produced by Python's `json.loads` on the fragment the
watcher handles.  Objects keep insertion order, mirroring Python dicts;
numbers are modelled as integers (see the file header). -/
inductive Json where
  | null
  | bool (b : Bool)
  | num (n : Int)
  | str (s : String)
  | arr (elems : List Json)
  | obj (fields : List (String × Json))

/-- Key membership in an object's field list (Python `key in dict`). -/
def hasKey (fields : List (String × Json)) (k : String) : Bool :=
  fields.any (fun kv => kv.1 = k)

/-- First value bound to `k` (Python `dict[key]`); keys are unique after
parsing, so first match is the binding. -/
def getField (fields : List (String × Json)) (k : String) : Option Json :=
  match fields with
  | [] => none
  | (k2, v) :: rest => if k2 = k then some v else getField rest k

/-- Python `dict[k] = v` on an insertion-ordered association list: replace in
place when the key exists, append otherwise — exactly Python's dict
update, which also gives `json.loads` its duplicate-key semantics
(first position, last value). -/
def setField (fields : List (String × Json)) (k : String) (v : Json) :
    List (String × Json) :=
  match fields with
  | [] => [(k, v)]
  | (k2, w) :: rest =>
      if k2 = k then (k2, v) :: rest else (k2, w) :: setField rest k v

/-- Collapse duplicate keys the way building a Python dict does. -/
def dedupFields (fields : List (String × Json)) : List (String × Json) :=
  go [] fields
where
  go (acc : List (String × Json)) : List (String × Json) → List (String × Json)
    | [] => acc
    | (k, v) :: rest => go (setField acc k v) rest

/-! ### A model of `json.loads`

Structural on an explicit fuel argument so every definition is a plain
computable `def` that the kernel can evaluate. -/

/-- The four whitespace characters the JSON grammar skips. -/
def isJsonWs (c : Char) : Bool :=
  c = ' ' || c = '\t' || c = '\n' || c = '\r'

/-- Drop leading JSON whitespace. -/
def skipWs : List Char → List Char
  | [] => []
  | c :: cs => if isJsonWs c then skipWs cs else c :: cs

/-- Value of a hexadecimal digit. -/
def hexDigit (c : Char) : Option Nat :=
  if '0' ≤ c && c ≤ '9' then some (c.toNat - 48)
  else if 'a' ≤ c && c ≤ 'f' then some (c.toNat - 87)
  else if 'A' ≤ c && c ≤ 'F' then some (c.toNat - 55)
  else none

/-- Value of a four-digit hexadecimal escape. -/
def hexQuad (a b c d : Char) : Option Nat :=
  match hexDigit a, hexDigit b, hexDigit c, hexDigit d with
  | some va, some vb, some vc, some vd =>
      some (((va * 16 + vb) * 16 + vc) * 16 + vd)
  | _, _, _, _ => none

/-- The two-character escapes of the JSON string grammar. -/
def escapeChar (c : Char) : Option Char :=
  if c = '"' then some '"'
  else if c = '\\' then some '\\'
  else if c = '/' then some '/'
  else if c = 'b' then some (Char.ofNat 8)
  else if c = 'f' then some (Char.ofNat 12)
  else if c = 'n' then some '\n'
  else if c = 'r' then some '\r'
  else if c = 't' then some '\t'
  else none

/-- Scan the body of a JSON string after its opening quote, returning the
decoded characters and the remainder after the closing quote.  `\uXXXX`
escapes combine UTF-16 surrogate pairs the way Python does; a lone
surrogate makes the scan fail (Python would build a non-scalar string —
outside this model).  Raw control characters fail as under Python's
default strict mode. -/
def scanStringBody : Nat → List Char → Option (List Char × List Char)
  | 0, _ => none
  | _ + 1, [] => none
  | fuel + 1, c :: rest =>
    if c = '"' then some ([], rest)
    else if c = '\\' then
      match rest with
      | [] => none
      | 'u' :: h1 :: h2 :: h3 :: h4 :: rest2 =>
        match hexQuad h1 h2 h3 h4 with
        | none => none
        | some n =>
          if 0xD800 ≤ n && n ≤ 0xDBFF then
            match rest2 with
            | '\\' :: 'u' :: g1 :: g2 :: g3 :: g4 :: rest3 =>
              match hexQuad g1 g2 g3 g4 with
              | none => none
              | some m =>
                if 0xDC00 ≤ m && m ≤ 0xDFFF then
                  match scanStringBody fuel rest3 with
                  | some (out, r) =>
                      some (Char.ofNat
                        (0x10000 + (n - 0xD800) * 0x400 + (m - 0xDC00)) :: out, r)
                  | none => none
                else none
            | _ => none
          else if 0xDC00 ≤ n && n ≤ 0xDFFF then none
          else
            match scanStringBody fuel rest2 with
            | some (out, r) => some (Char.ofNat n :: out, r)
            | none => none
      | e :: rest2 =>
        match escapeChar e with
        | none => none
        | some d =>
          match scanStringBody fuel rest2 with
          | some (out, r) => some (d :: out, r)
          | none => none
    else if c.toNat < 0x20 then none
    else
      match scanStringBody fuel rest with
      | some (out, r) => some (c :: out, r)
      | none => none

/-- Decimal value of a digit run. -/
def digitsVal (ds : List Char) : Nat :=
  ds.foldl (fun acc c => acc * 10 + (c.toNat - 48)) 0

/-- Scan a JSON integer literal: optional minus, digits, no redundant
leading zero.  A following `.`, `e` or `E` would make a Python float,
which is outside this model, so the scan fails there (the caller then
reports the whole document undecodable). -/
def scanNumber (cs : List Char) : Option (Json × List Char) :=
  let (neg, cs2) := match cs with
    | '-' :: t => (true, t)
    | _ => (false, cs)
  let (ds, rest) := cs2.span Char.isDigit
  match ds with
  | [] => none
  | '0' :: _ :: _ => none
  | _ =>
    match rest with
    | '.' :: _ => none
    | 'e' :: _ => none
    | 'E' :: _ => none
    | _ =>
      let v : Int := digitsVal ds
      some (.num (if neg then -v else v), rest)

mutual

/-- Scan one JSON value (after skipping whitespace), fuelled. -/
def scanValue : Nat → List Char → Option (Json × List Char)
  | 0, _ => none
  | fuel + 1, cs =>
    match skipWs cs with
    | [] => none
    | c :: rest =>
      if c = 'n' then
        match rest with
        | 'u' :: 'l' :: 'l' :: r => some (.null, r)
        | _ => none
      else if c = 't' then
        match rest with
        | 'r' :: 'u' :: 'e' :: r => some (.bool true, r)
        | _ => none
      else if c = 'f' then
        match rest with
        | 'a' :: 'l' :: 's' :: 'e' :: r => some (.bool false, r)
        | _ => none
      else if c = '"' then
        match scanStringBody (rest.length + 1) rest with
        | some (out, r) => some (.str out.asString, r)
        | none => none
      else if c = '[' then
        match skipWs rest with
        | ']' :: r => some (.arr [], r)
        | _ =>
          match scanElements fuel rest with
          | some (es, r) => some (.arr es, r)
          | none => none
      else if c = '\x7b' then
        match skipWs rest with
        | '\x7d' :: r => some (.obj [], r)
        | _ =>
          match scanMembers fuel rest with
          | some (fs, r) => some (.obj (dedupFields fs), r)
          | none => none
      else scanNumber (c :: rest)

/-- Scan one-or-more comma-separated array elements up to `]`. -/
def scanElements : Nat → List Char → Option (List Json × List Char)
  | 0, _ => none
  | fuel + 1, cs =>
    match scanValue fuel cs with
    | none => none
    | some (v, r) =>
      match skipWs r with
      | ']' :: r2 => some ([v], r2)
      | ',' :: r2 =>
        match scanElements fuel r2 with
        | some (vs, r3) => some (v :: vs, r3)
        | none => none
      | _ => none

/-- Scan one-or-more comma-separated object members up to the closing
brace. -/
def scanMembers : Nat → List Char → Option (List (String × Json) × List Char)
  | 0, _ => none
  | fuel + 1, cs =>
    match skipWs cs with
    | '"' :: r =>
      match scanStringBody (r.length + 1) r with
      | none => none
      | some (key, r1) =>
        match skipWs r1 with
        | ':' :: r2 =>
          match scanValue fuel r2 with
          | none => none
          | some (v, r3) =>
            match skipWs r3 with
            | '\x7d' :: r4 => some ([(key.asString, v)], r4)
            | ',' :: r4 =>
              match scanMembers fuel r4 with
              | some (fs, r5) => some ((key.asString, v) :: fs, r5)
              | none => none
            | _ => none
        | _ => none
    | _ => none

end

/-- Model of Python's `json.loads` on the fragment the watcher exchanges:
`none` is a raised `JSONDecodeError`.  The whole input must be consumed
apart from trailing whitespace. -/
def json_loads (s : String) : Option Json :=
  match scanValue (4 * (s.length + 1)) s.toList with
  | some (j, rest) => if (skipWs rest).isEmpty then some j else none
  | none => none

/-! ### A model of `json.dumps(obj, indent=2)` -/

/-- Decimal digits of a natural number, fuelled (fuel `n + 1` always
suffices since `n / 10 < n` for positive `n`). -/
def natDigitsAux : Nat → Nat → List Char
  | 0, _ => []
  | fuel + 1, n =>
    if n < 10 then [Char.ofNat (48 + n)]
    else natDigitsAux fuel (n / 10) ++ [Char.ofNat (48 + n % 10)]

/-- Decimal rendering of a natural number. -/
def natDec (n : Nat) : String :=
  (natDigitsAux (n + 1) n).asString

/-- Decimal rendering of an integer, as Python prints an `int`. -/
def intDec : Int → String
  | .ofNat m => natDec m
  | .negSucc m => "-" ++ natDec (m + 1)

/-- Four-digit lowercase hexadecimal, for `\uXXXX` escapes. -/
def hexQuadStr (n : Nat) : String :=
  let d : Nat → Char := fun k =>
    if k < 10 then Char.ofNat (48 + k) else Char.ofNat (87 + k)
  ⟨[d (n / 4096 % 16), d (n / 256 % 16), d (n / 16 % 16), d (n % 16)]⟩

/-- How `json.dumps` writes one character of a string with the default
`ensure_ascii=True`: printable ASCII passes through, the named escapes
cover the usual control characters, everything else becomes `\uXXXX`
(with a surrogate pair above the basic plane). -/
def encodeChar (c : Char) : String :=
  if c = '"' then "\\\""
  else if c = '\\' then "\\\\"
  else if c = '\n' then "\\n"
  else if c = '\r' then "\\r"
  else if c = '\t' then "\\t"
  else if c.toNat = 8 then "\\b"
  else if c.toNat = 12 then "\\f"
  else if c.toNat < 0x20 || 0x7e < c.toNat then
    if c.toNat < 0x10000 then "\\u" ++ hexQuadStr c.toNat
    else
      let k := c.toNat - 0x10000
      "\\u" ++ hexQuadStr (0xD800 + k / 0x400) ++ "\\u" ++ hexQuadStr (0xDC00 + k % 0x400)
  else String.singleton c

/-- A JSON string literal as `json.dumps` writes it. -/
def encodeString (s : String) : String :=
  "\"" ++ String.join (s.toList.map encodeChar) ++ "\""

/-- A run of `n` spaces. -/
def indentStr (n : Nat) : String :=
  ⟨List.replicate n ' '⟩

mutual

/-- Model of `json.dumps(v, indent=2)` at current closing-bracket column `ind`:
items go at column `ind + 2`, the closing bracket back at `ind`, item
separator `,` and key separator `: ` (the defaults when an indent is
given). -/
def dumpValue (ind : Nat) : Json → String
  | .null => "null"
  | .bool true => "true"
  | .bool false => "false"
  | .num n => intDec n
  | .str s => encodeString s
  | .arr es =>
      match es with
      | [] => "[]"
      | _ :: _ => "[\n" ++ dumpItems (ind + 2) es ++ "\n" ++ indentStr ind ++ "]"
  | .obj fs =>
      match fs with
      | [] => "\x7b\x7d"
      | _ :: _ =>
          "\x7b\n" ++ dumpPairs (ind + 2) fs ++ "\n" ++ indentStr ind ++ "\x7d"

/-- The comma-and-newline separated elements of a non-empty array. -/
def dumpItems (ind : Nat) : List Json → String
  | [] => ""
  | [e] => indentStr ind ++ dumpValue ind e
  | e :: es => indentStr ind ++ dumpValue ind e ++ ",\n" ++ dumpItems ind es

/-- The comma-and-newline separated members of a non-empty object. -/
def dumpPairs (ind : Nat) : List (String × Json) → String
  | [] => ""
  | [(k, v)] => indentStr ind ++ encodeString k ++ ": " ++ dumpValue ind v
  | (k, v) :: fs =>
      indentStr ind ++ encodeString k ++ ": " ++ dumpValue ind v ++
        ",\n" ++ dumpPairs ind fs

end

/-! ### `format_event` -/

/-- Python's `needle in container` for the values `json.loads` can
return: key membership on a dict, element equality against the string
`needle` on a list, substring containment on a string; on `None`,
booleans and numbers the operator raises `TypeError`, modelled as
`none`. -/
def pyContains (v : Json) (needle : String) : Option Bool :=
  match v with
  | .obj fields => some (hasKey fields needle)
  | .arr elems => some (elems.any (fun e =>
      match e with
      | .str s => s = needle
      | _ => false))
  | .str s => some (listContainsSub needle.toList s.toList)
  | _ => none
where
  listIsPrefixOf : List Char → List Char → Bool
    | [], _ => true
    | _ :: _, [] => false
    | a :: xs, b :: ys => a = b && listIsPrefixOf xs ys
  listContainsSub (needle hay : List Char) : Bool :=
    match hay with
    | [] => needle.isEmpty
    | _ :: tl => listIsPrefixOf needle hay || listContainsSub needle tl

/-- Python's `container[key]` for a string key: a dict lookup (missing
key raises `KeyError`), anything else raises `TypeError`; both raises
are `none`. -/
def pyGetItem (v : Json) (k : String) : Option Json :=
  match v with
  | .obj fields => getField fields k
  | _ => none

/-- Model of `format_event` from the script, line for line:

    def format_event(body):
        try:
            obj = json.loads(body)
            if 'details' in obj and isinstance(obj['details'], str):
                try:
                    obj['details'] = json.loads(obj['details'])
                except:
                    pass
            return json.dumps(obj, indent=2)
        except:
            return body

The outer bare `except` also catches the `TypeError` that `'details' in
obj` or `obj['details']` raises on non-container values, in which case
the raw body comes back verbatim. -/
def format_event (body : String) : String :=
  match json_loads body with
  | none => body
  | some objv =>
    match pyContains objv "details" with
    | none => body
    | some false => dumpValue 0 objv
    | some true =>
      match pyGetItem objv "details" with
      | none => body
      | some (.str s) =>
        match objv, json_loads s with
        | .obj fields, some parsed =>
            dumpValue 0 (.obj (setField fields "details" parsed))
        | _, _ => dumpValue 0 objv
      | some _ => dumpValue 0 objv

/-! ### The watcher: configuration and `run_aws` -/

/-- Constant `QUEUE_NAME = "audit-queue"`. -/
def QUEUE_NAME : String := "audit-queue"

/-- Constant `REGION = "eu-west-2"`. -/
def REGION : String := "eu-west-2"

/-- Colour `GREEN = '\033[0;32m'`. -/
def GREEN : String := "\x1b[0;32m"

/-- Colour `YELLOW = '\033[1;33m'`. -/
def YELLOW : String := "\x1b[1;33m"

/-- Colour `BLUE = '\033[0;34m'`. -/
def BLUE : String := "\x1b[0;34m"

/-- Colour reset `NC = '\033[0m'`. -/
def NC : String := "\x1b[0m"

/-- Initial `SEEN = set()`: the seen-set starts empty at process launch.  The
running value is threaded explicitly through the loop model below as a
list of identifier strings with set membership. -/
def SEEN : List String := []

/-- What the watcher observes of one `subprocess.run` call: the client's
exit status and its standard output. -/
structure ProcResult where
  returncode : Int
  stdout : String

/-- The full argument list `run_aws` hands to `subprocess.run`:
`["awslocal", "sqs"] + args + ["--region", REGION, "--output", "json"]`. -/
def awsCommand (args : List String) : List String :=
  ["awslocal", "sqs"] ++ args ++ ["--region", REGION, "--output", "json"]

/-- Model of `run_aws`, given what the subprocess did: parsed JSON from standard
output on exit status 0, `None` on a non-zero exit or a
`json.JSONDecodeError`. -/
def run_aws (result : ProcResult) : Option Json :=
  if result.returncode = 0 then json_loads result.stdout else none

/-! ### The watcher: message filtering -/

/-- One received message after the loop body's field accesses
`msg['MessageId']`, `int(msg['Attributes']['SentTimestamp'])` and
`msg['Body']`. -/
structure SqsMessage where
  msgId : String
  sentTs : Int
  body : String
deriving DecidableEq, Repr

/-- The display predicate of the loop body, line 85 of the script:
`sent_ts > START_TIME and msg_id not in SEEN`. -/
def shouldDisplay (startTime : Int) (seen : List String) (m : SqsMessage) :
    Bool :=
  decide (startTime < m.sentTs) && !(seen.contains m.msgId)

/-- One iteration's inner `for msg in ...` loop: each message passing
`shouldDisplay` is added to the seen-set and displayed, in order.
Returns the seen-set after the iteration and the displayed messages. -/
def processPoll (startTime : Int) (seen : List String) :
    List SqsMessage → List String × List SqsMessage
  | [] => (seen, [])
  | m :: rest =>
    if shouldDisplay startTime seen m then
      ((processPoll startTime (m.msgId :: seen) rest).1,
       m :: (processPoll startTime (m.msgId :: seen) rest).2)
    else processPoll startTime seen rest

/-- A whole run at the message level: one `processPoll` per poll,
threading the seen-set, collecting each iteration's displayed messages. -/
def runPolls (startTime : Int) (seen : List String) :
    List (List SqsMessage) → List String × List (List SqsMessage)
  | [] => (seen, [])
  | p :: rest =>
    ((runPolls startTime (processPoll startTime seen p).1 rest).1,
     (processPoll startTime seen p).2 ::
       (runPolls startTime (processPoll startTime seen p).1 rest).2)

/-- The `k`-th poll of a run (empty past the end). -/
def pollAt (polls : List (List SqsMessage)) (k : Nat) : List SqsMessage :=
  polls.getD k []

/-- The messages displayed during the `k`-th iteration of a run. -/
def displaysAt (startTime : Int) (seen : List String)
    (polls : List (List SqsMessage)) (k : Nat) : List SqsMessage :=
  (runPolls startTime seen polls).2.getD k []

/-- The seen-set at the start of the `k`-th iteration of a run. -/
def seenBefore (startTime : Int) (seen : List String)
    (polls : List (List SqsMessage)) (k : Nat) : List String :=
  (runPolls startTime seen (polls.take k)).1

/-! ### The watcher: decoding a receive-message response

The loop body reads `response.get('Messages', [])` and then
`msg['MessageId']`, `int(msg['Attributes']['SentTimestamp'])` and (at
display time) `msg['Body']`.  None of these accesses sits inside a
handler, so a decoded response of the wrong shape raises and kills the
process; `none` below stands for that raise.  Two simplifications,
consistent with the SQS schema the spec fixes (identifier and body are
strings): a non-string `MessageId` or `Body` is also mapped to `none`,
although Python itself would carry such values along. -/

/-- Python truthiness of a decoded JSON value (`if response:`). -/
def pyTruthy : Json → Bool
  | .null => false
  | .bool b => b
  | .num n => decide (n ≠ 0)
  | .str s => !s.isEmpty
  | .arr es => !es.isEmpty
  | .obj fs => !fs.isEmpty

/-- Python's `int(x)` on a decoded JSON value: numbers pass through,
booleans count 0/1, strings are stripped of surrounding whitespace and
read as an optionally signed digit run (digit-group underscores are not
modelled); everything else raises. -/
def pyInt : Json → Option Int
  | .num n => some n
  | .bool b => some (if b then 1 else 0)
  | .str s =>
      let core := (s.toList.dropWhile isJsonWs).reverse.dropWhile isJsonWs
        |>.reverse
      let (neg, ds) := match core with
        | '-' :: t => (true, t)
        | '+' :: t => (false, t)
        | _ => (false, core)
      if ds.isEmpty || !(ds.all Char.isDigit) then none
      else some (if neg then -(digitsVal ds : Int) else (digitsVal ds : Int))
  | _ => none

/-- The loop body's reads on one element of the `Messages` list. -/
def decodeMessage (j : Json) : Option SqsMessage :=
  match j with
  | .obj fields =>
    match getField fields "MessageId" with
    | some (.str mid) =>
      match getField fields "Attributes" with
      | some (.obj attrs) =>
        match getField attrs "SentTimestamp" with
        | some tsv =>
          match pyInt tsv with
          | some ts =>
            match getField fields "Body" with
            | some (.str b) => some ⟨mid, ts, b⟩
            | _ => none
          | none => none
        | none => none
      | _ => none
    | _ => none
  | _ => none

/-- Decode every element of `response.get('Messages', [])`. -/
def decodeMessageList : List Json → Option (List SqsMessage)
  | [] => some []
  | j :: rest =>
    match decodeMessage j, decodeMessageList rest with
    | some m, some ms => some (m :: ms)
    | _, _ => none

/-- The message list one truthy decoded response yields, or `none` for a
shape on which the loop body would raise. -/
def decodeResponse (resp : Json) : Option (List SqsMessage) :=
  match resp with
  | .obj fields =>
    match getField fields "Messages" with
    | none => some []
    | some (.arr elems) => decodeMessageList elems
    | some _ => none
  | _ => none

/-- What one round's `response` value yields: a `None` or falsy response
is skipped by `if response:` (nothing to display, never a raise), a
truthy one is decoded. -/
def pollMessages : Option Json → Option (List SqsMessage)
  | none => some []
  | some r => if pyTruthy r then decodeResponse r else some []

/-! ### The watcher: the loop and `main` as a transition system -/

/-- One observable line of standard output.  `log` lines carry their
colour; the two lines whose text embeds `datetime.now()` are abstracted
to `clockLogged` (their wall-clock content is outside the model). -/
inductive OutLine where
  | logged (color : String) (message : String)
  | clockLogged (color : String)
  | printed (s : String)
deriving DecidableEq, Repr

/-- The final `log("\nStopped", YELLOW)` of the interrupt handler. -/
def stoppedLine : OutLine := .logged YELLOW "\nStopped"

/-- What the display branch prints for one message: the green
timestamped header, the formatted body, a blank line. -/
def renderOut (m : SqsMessage) : List OutLine :=
  [.clockLogged GREEN, .printed (format_event m.body), .printed ""]

/-- One round of the environment as the loop experiences it: either the
receive call returns (with `run_aws`'s result) and the round completes,
or a `KeyboardInterrupt` arrives during the round. -/
inductive PollEvent where
  | response (r : Option Json)
  | interrupt

/-- How a run of the loop ended (or has not). -/
inductive RunOutcome where
  | interrupted
  | crashed
  | running
deriving DecidableEq, Repr

/-- Everything observable about a run of the `while True:` loop. -/
structure LoopResult where
  outcome : RunOutcome
  seen : List String
  output : List OutLine
  commands : List (List String)
deriving Repr

/-- The arguments of the one receive call the loop makes, lines 71–77 of
the script. -/
def receiveMessageArgs (queue_url : String) : List String :=
  ["receive-message", "--queue-url", queue_url,
   "--max-number-of-messages", "10",
   "--wait-time-seconds", "5",
   "--visibility-timeout", "0",
   "--attribute-names", "SentTimestamp"]

/-- The `try: while True: ...` loop over a finite trace of rounds.  An
exhausted trace leaves the loop `running` (it has no exit of its own); an
interrupt is caught by the `except KeyboardInterrupt:` handler, which
prints the stopped line; a response the loop body cannot read crashes the
run (uncaught exception). -/
def loopRun (startTime : Int) (queue_url : String) (seen : List String) :
    List PollEvent → LoopResult
  | [] => ⟨.running, seen, [], []⟩
  | .interrupt :: _ => ⟨.interrupted, seen, [stoppedLine], []⟩
  | .response r :: rest =>
    let cmd := awsCommand (receiveMessageArgs queue_url)
    match pollMessages r with
    | none => ⟨.crashed, seen, [], [cmd]⟩
    | some msgs =>
      let t := loopRun startTime queue_url (processPoll startTime seen msgs).1 rest
      ⟨t.outcome, t.seen,
       (processPoll startTime seen msgs).2.flatMap renderOut ++ t.output,
       cmd :: t.commands⟩

/-- How a whole process run ended (or has not). -/
inductive MainOutcome where
  | startupFailed
  | interrupted
  | crashed
  | running
deriving DecidableEq, Repr

/-- Everything observable about a run of `main`.  `exitCode` is the
process exit status where the model fixes one: `some 1` for the
`sys.exit(1)` of startup failure, `some 0` for the clean return after an
interrupt, `none` while still running or for an uncaught exception. -/
structure MainResult where
  outcome : MainOutcome
  exitCode : Option Int
  output : List OutLine
  commands : List (List String)
deriving Repr

/-- The first log line of `main`. -/
def bannerLine : OutLine :=
  .logged BLUE ("Watching audit queue: " ++ QUEUE_NAME ++ " (" ++ REGION ++ ")")

/-- The error line of the startup-failure branch. -/
def queueErrLine : OutLine :=
  .logged YELLOW ("Error: Queue \x27" ++ QUEUE_NAME ++ "\x27 not found")

/-- Reading `response['QueueUrl']` as the loop needs it: present and a string
(a non-string value would make `subprocess.run` raise on the first
receive call — folded into the crash bucket here). -/
def queueUrlOf (resp : Json) : Option String :=
  match resp with
  | .obj fields =>
    match getField fields "QueueUrl" with
    | some (.str u) => some u
    | _ => none
  | _ => none

/-- Model of `main`, over the queue-resolution response (already through
`run_aws`) and a finite trace of loop rounds. -/
def pyMain (startTime : Int) (resolveResp : Option Json)
    (events : List PollEvent) : MainResult :=
  let resolveCmd := awsCommand ["get-queue-url", "--queue-name", QUEUE_NAME]
  match resolveResp with
  | none => ⟨.startupFailed, some 1, [bannerLine, queueErrLine], [resolveCmd]⟩
  | some r =>
    if pyTruthy r then
      match queueUrlOf r with
      | none => ⟨.crashed, none, [bannerLine], [resolveCmd]⟩
      | some url =>
        let t := loopRun startTime url SEEN events
        let oc : MainOutcome := match t.outcome with
          | .interrupted => .interrupted
          | .crashed => .crashed
          | .running => .running
        let code : Option Int := match t.outcome with
          | .interrupted => some 0
          | _ => none
        ⟨oc, code, [bannerLine, .clockLogged BLUE] ++ t.output,
          resolveCmd :: t.commands⟩
    else ⟨.startupFailed, some 1, [bannerLine, queueErrLine], [resolveCmd]⟩

/-- A loop round the body can always read: an interrupt, a failed or
falsy response, or a decodable one. -/
def wellFormedEvent : PollEvent → Bool
  | .interrupt => true
  | .response none => true
  | .response (some r) => !pyTruthy r || (decodeResponse r).isSome

/-- A queue-resolution response `main` can always read: anything the
error branch catches, or a truthy object carrying a string `QueueUrl`. -/
def wellFormedResolve : Option Json → Bool
  | none => true
  | some r => !pyTruthy r || (queueUrlOf r).isSome

/-! ### Concrete evaluations

Spot checks of the executable model against the behaviour of the
Python originals on the same inputs. -/

example : json_loads "null" = some .null := rfl

example : json_loads " true " = some (.bool true) := rfl

example : json_loads "-12" = some (.num (-12)) := rfl

example : json_loads "01" = none := rfl

example : json_loads "1.5" = none := rfl

example : json_loads "\"a\\n\"" = some (.str "a\n") := rfl

example : json_loads "[1, [2]]" = some (.arr [.num 1, .arr [.num 2]]) := rfl

example : json_loads "\x7b\"a\": 1, \"a\": 2\x7d" = some (.obj [("a", .num 2)]) := rfl

example : json_loads "\x7b\"a\":1,\"details\":\"\x7b\\\"b\\\":2\x7d\"\x7d" =
    some (.obj [("a", .num 1), ("details", .str "\x7b\"b\":2\x7d")]) := rfl

example : json_loads "" = none := rfl

example : json_loads "not-json" = none := rfl

example : dumpValue 0 (.num (-3)) = "-3" := rfl

example : dumpValue 0 (.arr [.num 1, .num 2]) = "[\n  1,\n  2\n]" := rfl

example : dumpValue 0 (.obj [("a", .num 1), ("details", .obj [("b", .num 2)])]) =
    "\x7b\n  \"a\": 1,\n  \"details\": \x7b\n    \"b\": 2\n  \x7d\n\x7d" := rfl

example : dumpValue 0 (.str "x\"y") = "\"x\\\"y\"" := rfl

example : format_event "\x7b\"a\":1,\"details\":\"\x7b\\\"b\\\":2\x7d\"\x7d" =
    "\x7b\n  \"a\": 1,\n  \"details\": \x7b\n    \"b\": 2\n  \x7d\n\x7d" := rfl

example : format_event "\x7b\"a\":1,\"details\":\"not-json\"\x7d" =
    "\x7b\n  \"a\": 1,\n  \"details\": \"not-json\"\n\x7d" := rfl

example : format_event "not-json" = "not-json" := rfl

example : format_event "" = "" := rfl

example : format_event "7" = "7" := rfl

example : format_event " 7 " = " 7 " := rfl

example : format_event "\"no-marker\"" = "\"no-marker\"" := rfl

example : format_event "\"has details inside\"" = "\"has details inside\"" := rfl

example : format_event "[\"details\"]" = "[\"details\"]" := rfl

example : format_event "[\"other\"]" = "[\n  \"other\"\n]" := rfl

example : format_event "\x7b\"details\": \"[1,2]\"\x7d" =
    "\x7b\n  \"details\": [\n    1,\n    2\n  ]\n\x7d" := rfl

example : format_event "true" = "true" := rfl

example : format_event "[]" = "[]" := rfl

/-! ### Lemmas about the seen-set and the display discipline -/

theorem processPoll_seen_mono (st : Int) (seen : List String)
    (p : List SqsMessage) (x : String) (hx : x ∈ seen) :
    x ∈ (processPoll st seen p).1 := by
  induction p generalizing seen with
  | nil => exact hx
  | cons m rest ih =>
    by_cases h : shouldDisplay st seen m = true
    · simpa [processPoll, h] using ih (m.msgId :: seen) (List.mem_cons_of_mem _ hx)
    · simpa [processPoll, h] using ih seen hx

theorem processPoll_seen_iff (st : Int) (seen : List String)
    (p : List SqsMessage) (x : String) :
    x ∈ (processPoll st seen p).1 ↔
      x ∈ seen ∨ x ∈ (processPoll st seen p).2.map SqsMessage.msgId := by
  induction p generalizing seen with
  | nil => simp [processPoll]
  | cons m rest ih =>
    by_cases h : shouldDisplay st seen m = true
    · simp only [processPoll, h, if_pos, List.map_cons, List.mem_cons]
      rw [ih]
      simp [List.mem_cons]
      tauto
    · simp only [processPoll, h, Bool.false_eq_true, if_false]
      exact ih seen

theorem runPolls_seen_mono (st : Int) (seen : List String)
    (polls : List (List SqsMessage)) (x : String) (hx : x ∈ seen) :
    x ∈ (runPolls st seen polls).1 := by
  induction polls generalizing seen with
  | nil => exact hx
  | cons p rest ih =>
    exact ih (processPoll st seen p).1 (processPoll_seen_mono st seen p x hx)

theorem runPolls_seen_iff (st : Int) (seen : List String)
    (polls : List (List SqsMessage)) (x : String) :
    x ∈ (runPolls st seen polls).1 ↔
      x ∈ seen ∨ x ∈ (runPolls st seen polls).2.flatten.map SqsMessage.msgId := by
  induction polls generalizing seen with
  | nil => simp [runPolls]
  | cons p rest ih =>
    simp only [runPolls, List.flatten_cons, List.map_append, List.mem_append]
    rw [ih, processPoll_seen_iff]
    tauto

/-- Messages whose identifier is already seen are never displayed, in
this poll or any later state reached from it. -/
theorem processPoll_blocked (st : Int) (seen : List String)
    (p : List SqsMessage) (i : String) (hi : i ∈ seen) :
    (processPoll st seen p).2.filter (fun d => d.msgId == i) = [] := by
  induction p generalizing seen with
  | nil => rfl
  | cons m rest ih =>
    by_cases h : shouldDisplay st seen m = true
    · have hne : ¬ m.msgId = i := by
        intro he
        have hmem : m.msgId ∈ seen := he ▸ hi
        simp [shouldDisplay] at h
        exact absurd hmem h.2
      simp only [processPoll, h, if_pos, List.filter_cons]
      have : (m.msgId == i) = false := by simpa using hne
      simp only [this, Bool.false_eq_true, if_neg, reduceCtorEq]
      exact ih (m.msgId :: seen) (List.mem_cons_of_mem _ hi)
    · simp only [processPoll, h, Bool.false_eq_true, if_false]
      exact ih seen hi

/-- In a poll whose only message with identifier `m.msgId` is `m` itself,
an unseen `m` with a late-enough timestamp is displayed exactly when the
poll contains it, and its identifier enters the seen-set exactly then. -/
theorem processPoll_first (st : Int) (p : List SqsMessage) (m : SqsMessage)
    (hts : st < m.sentTs) :
    ∀ seen : List String, m.msgId ∉ seen →
      (∀ m2 ∈ p, m2.msgId = m.msgId → m2 = m) →
      (processPoll st seen p).2.filter (fun d => d.msgId == m.msgId)
          = (if m ∈ p then [m] else [])
        ∧ (m.msgId ∈ (processPoll st seen p).1 ↔ m ∈ p) := by
  induction p with
  | nil =>
    intro seen hns _
    simp [processPoll, hns]
  | cons m2 rest ih =>
    intro seen hns huniq
    have huniq2 : ∀ m3 ∈ rest, m3.msgId = m.msgId → m3 = m :=
      fun m3 h3 => huniq m3 (List.mem_cons_of_mem _ h3)
    by_cases he : m2.msgId = m.msgId
    · have hm2 : m2 = m := huniq m2 (List.mem_cons_self _ _) he
      subst hm2
      have hd : shouldDisplay st seen m2 = true := by
        simp [shouldDisplay, hts, hns]
      refine ⟨?_, ?_⟩
      · simp only [processPoll, hd, if_pos, List.filter_cons, beq_self_eq_true,
          if_true]
        rw [processPoll_blocked st (m2.msgId :: seen) rest m2.msgId
          (List.mem_cons_self _ _)]
        simp
      · simp only [processPoll, hd, if_pos]
        have : m2.msgId ∈ (processPoll st (m2.msgId :: seen) rest).1 :=
          processPoll_seen_mono st _ rest _ (List.mem_cons_self _ _)
        simp [this]
    · have hmne : ¬ m = m2 := fun hh => he (by rw [hh])
      by_cases hd : shouldDisplay st seen m2 = true
      · have hns2 : m.msgId ∉ m2.msgId :: seen := by
          simp only [List.mem_cons]
          push_neg
          exact ⟨fun hh => he hh.symm, hns⟩
        obtain ⟨ih1, ih2⟩ := ih (m2.msgId :: seen) hns2 huniq2
        have hbf : (m2.msgId == m.msgId) = false := by simpa using he
        refine ⟨?_, ?_⟩
        · simp only [processPoll, hd, if_pos, List.filter_cons, hbf,
            Bool.false_eq_true, if_false]
          rw [ih1]
          simp [List.mem_cons, hmne]
        · simp only [processPoll, hd, if_pos]
          rw [ih2]
          simp [List.mem_cons, hmne]
      · obtain ⟨ih1, ih2⟩ := ih seen hns huniq2
        refine ⟨?_, ?_⟩
        · simp only [processPoll, hd, Bool.false_eq_true, if_false]
          rw [ih1]
          simp [List.mem_cons, hmne]
        · simp only [processPoll, hd, Bool.false_eq_true, if_false]
          rw [ih2]
          simp [List.mem_cons, hmne]

theorem displaysAt_nil (st : Int) (seen : List String) (k : Nat) :
    displaysAt st seen [] k = [] := by
  simp [displaysAt, runPolls]

theorem displaysAt_zero (st : Int) (seen : List String)
    (p : List SqsMessage) (rest : List (List SqsMessage)) :
    displaysAt st seen (p :: rest) 0 = (processPoll st seen p).2 := by
  simp [displaysAt, runPolls]

theorem displaysAt_succ (st : Int) (seen : List String)
    (p : List SqsMessage) (rest : List (List SqsMessage)) (k : Nat) :
    displaysAt st seen (p :: rest) (k + 1) =
      displaysAt st (processPoll st seen p).1 rest k := by
  simp [displaysAt, runPolls]

/-- A seen identifier is never displayed at any later iteration. -/
theorem displaysAt_blocked (st : Int) (i : String) :
    ∀ (polls : List (List SqsMessage)) (seen : List String), i ∈ seen →
      ∀ k, (displaysAt st seen polls k).filter (fun d => d.msgId == i) = [] := by
  intro polls
  induction polls with
  | nil => intro seen _ k; simp [displaysAt_nil]
  | cons p rest ih =>
    intro seen hi k
    cases k with
    | zero => rw [displaysAt_zero]; exact processPoll_blocked st seen p i hi
    | succ k =>
      rw [displaysAt_succ]
      exact ih (processPoll st seen p).1 (processPoll_seen_mono st seen p i hi) k

/-- The per-iteration display record for an identifier delivered only as
the one message `m` (timestamp after start): iteration `k` displays it
exactly when poll `k` is the first poll carrying it. -/
theorem displaysAt_first (st : Int) (m : SqsMessage) (hts : st < m.sentTs) :
    ∀ (polls : List (List SqsMessage)) (seen : List String),
      m.msgId ∉ seen →
      (∀ p ∈ polls, ∀ m2 ∈ p, m2.msgId = m.msgId → m2 = m) →
      ∀ k, (displaysAt st seen polls k).filter (fun d => d.msgId == m.msgId) =
        (if m ∈ pollAt polls k ∧ (∀ j < k, m ∉ pollAt polls j)
         then [m] else []) := by
  intro polls
  induction polls with
  | nil =>
    intro seen _ _ k
    simp [displaysAt_nil, pollAt]
  | cons p rest ih =>
    intro seen hns huniq k
    have huniq0 : ∀ m2 ∈ p, m2.msgId = m.msgId → m2 = m :=
      huniq p (List.mem_cons_self _ _)
    have huniqR : ∀ q ∈ rest, ∀ m2 ∈ q, m2.msgId = m.msgId → m2 = m :=
      fun q hq => huniq q (List.mem_cons_of_mem _ hq)
    cases k with
    | zero =>
      rw [displaysAt_zero]
      rw [(processPoll_first st p m hts seen hns huniq0).1]
      simp [pollAt]
    | succ k =>
      rw [displaysAt_succ]
      by_cases hmp : m ∈ p
      · have hseen : m.msgId ∈ (processPoll st seen p).1 :=
          (processPoll_first st p m hts seen hns huniq0).2.mpr hmp
        rw [displaysAt_blocked st m.msgId rest (processPoll st seen p).1 hseen k]
        have : ¬ (∀ j < k + 1, m ∉ pollAt (p :: rest) j) := by
          intro hall
          exact hall 0 (Nat.succ_pos _) hmp
        simp [this]
      · have hns2 : m.msgId ∉ (processPoll st seen p).1 := by
          intro hmem
          exact hmp ((processPoll_first st p m hts seen hns huniq0).2.mp hmem)
        rw [ih (processPoll st seen p).1 hns2 huniqR k]
        have hcond : (m ∈ pollAt rest k ∧ ∀ j < k, m ∉ pollAt rest j) ↔
            (m ∈ pollAt (p :: rest) (k + 1) ∧
              ∀ j < k + 1, m ∉ pollAt (p :: rest) j) := by
          constructor
          · rintro ⟨h1, h2⟩
            refine ⟨h1, ?_⟩
            intro j hj
            cases j with
            | zero => exact hmp
            | succ j => exact h2 j (Nat.lt_of_succ_lt_succ hj)
          · rintro ⟨h1, h2⟩
            exact ⟨h1, fun j hj => h2 (j + 1) (Nat.succ_lt_succ hj)⟩
        rw [if_congr hcond rfl rfl]

/-- Once any earlier poll carried `m`, its identifier is in the seen-set
at the start of iteration `k`. -/
theorem seenBefore_of_earlier (st : Int) (m : SqsMessage)
    (hts : st < m.sentTs) :
    ∀ (polls : List (List SqsMessage)) (seen : List String),
      (∀ p ∈ polls, ∀ m2 ∈ p, m2.msgId = m.msgId → m2 = m) →
      ∀ k, (∃ j, j < k ∧ m ∈ pollAt polls j) →
        m.msgId ∈ seenBefore st seen polls k := by
  intro polls
  induction polls with
  | nil =>
    rintro seen _ k ⟨j, _, hj⟩
    simp [pollAt] at hj
  | cons p rest ih =>
    rintro seen huniq k ⟨j, hjk, hj⟩
    cases k with
    | zero => exact absurd hjk (Nat.not_lt_zero j)
    | succ k =>
      have hstep : seenBefore st seen (p :: rest) (k + 1) =
          (runPolls st (processPoll st seen p).1 (rest.take k)).1 := by
        simp [seenBefore, runPolls]
      rw [hstep]
      cases j with
      | zero =>
        have hmp : m ∈ p := hj
        have hseen : m.msgId ∈ (processPoll st seen p).1 := by
          by_cases hns : m.msgId ∈ seen
          · exact processPoll_seen_mono st seen p _ hns
          · exact (processPoll_first st p m hts seen hns
              (huniq p (List.mem_cons_self _ _))).2.mpr hmp
        exact runPolls_seen_mono st _ _ _ hseen
      | succ j =>
        have := ih (processPoll st seen p).1
          (fun q hq => huniq q (List.mem_cons_of_mem _ hq)) k
          ⟨j, Nat.lt_of_succ_lt_succ hjk, hj⟩
        simpa [seenBefore] using this

/-! ### Lemmas about rendering -/

theorem natDigitsAux_ne_nil (fuel n : Nat) : natDigitsAux (fuel + 1) n ≠ [] := by
  simp only [natDigitsAux]
  split
  · simp
  · simp

theorem natDec_ne_empty (n : Nat) : natDec n ≠ "" := by
  simp only [natDec]
  intro h
  have : (natDigitsAux (n + 1) n).asString.length = 0 := by rw [h]; rfl
  rw [List.length_asString] at this
  exact natDigitsAux_ne_nil n n (List.eq_nil_of_length_eq_zero this)

theorem append_ne_empty_of_right (a b : String) (hb : b ≠ "") :
    a ++ b ≠ "" := by
  intro h
  have hl := congrArg String.length h
  rw [String.length_append] at hl
  have hb0 : b.length = 0 := by
    have : String.length "" = 0 := rfl
    omega
  exact hb (String.ext (List.eq_nil_of_length_eq_zero hb0))

theorem intDec_ne_empty (n : Int) : intDec n ≠ "" := by
  cases n with
  | ofNat m => exact natDec_ne_empty m
  | negSucc m => exact append_ne_empty_of_right _ _ (natDec_ne_empty (m + 1))

/-- Every rendered JSON value is non-empty text. -/
theorem dumpValue_ne_empty (ind : Nat) (j : Json) : dumpValue ind j ≠ "" := by
  cases j with
  | null => simp [dumpValue]
  | bool b => cases b <;> simp [dumpValue]
  | num n => exact intDec_ne_empty n
  | str s =>
    simp only [dumpValue, encodeString]
    exact append_ne_empty_of_right _ _ (by decide)
  | arr es =>
    cases es with
    | nil => simp [dumpValue]
    | cons e es =>
      simp only [dumpValue]
      exact append_ne_empty_of_right _ _ (by decide)
  | obj fs =>
    cases fs with
    | nil => simp [dumpValue]
    | cons f fs =>
      simp only [dumpValue]
      exact append_ne_empty_of_right _ _ (by decide)

/-! ### Lemmas about `format_event` -/

theorem hasKey_of_getField (fields : List (String × Json)) (k : String)
    (v : Json) (h : getField fields k = some v) : hasKey fields k = true := by
  induction fields with
  | nil => simp [getField] at h
  | cons kv rest ih =>
    obtain ⟨k2, w⟩ := kv
    by_cases he : k2 = k
    · simp [hasKey, he]
    · simp only [getField, he, if_false, reduceIte] at h
      have := ih h
      simp [hasKey] at this ⊢
      exact Or.inr this

/-- An undecodable body comes back verbatim. -/
theorem format_event_undecodable (body : String)
    (h : json_loads body = none) : format_event body = body := by
  simp [format_event, h]

/-- A body decoding to an object with a string `details` field renders
as the object with that field replaced by the parse of the string when
it is valid JSON, and kept as-is otherwise. -/
theorem format_event_details (body s : String)
    (fields : List (String × Json))
    (hb : json_loads body = some (.obj fields))
    (hd : getField fields "details" = some (.str s)) :
    format_event body =
      dumpValue 0 (.obj (match json_loads s with
        | some parsed => setField fields "details" parsed
        | none => fields)) := by
  have hk := hasKey_of_getField fields "details" (.str s) hd
  simp only [format_event, hb, pyContains, hk, pyGetItem, hd]
  cases json_loads s <;> rfl

/-- A body decoding to a non-container, non-string value comes back
verbatim: the membership test raises `TypeError` and the outer handler
falls back to the raw body. -/
theorem format_event_scalar (body : String) (j : Json)
    (hb : json_loads body = some j)
    (hj : j = .null ∨ (∃ b, j = .bool b) ∨ (∃ n, j = .num n)) :
    format_event body = body := by
  rcases hj with h | ⟨b, h⟩ | ⟨n, h⟩ <;> subst h <;>
    simp [format_event, hb, pyContains]

/-- Totality: `format_event` either renders some JSON value or returns the body
verbatim. -/
theorem format_event_cases (body : String) :
    (∃ j, format_event body = dumpValue 0 j) ∨ format_event body = body := by
  unfold format_event
  split
  · exact Or.inr rfl
  · split
    · exact Or.inr rfl
    · exact Or.inl ⟨_, rfl⟩
    · split
      · exact Or.inr rfl
      · split
        · exact Or.inl ⟨_, rfl⟩
        · exact Or.inl ⟨_, rfl⟩
      · exact Or.inl ⟨_, rfl⟩

/-! ### Lemmas about the loop and `main` -/

/-- The display branch never prints the stopped line. -/
theorem renderOut_count_stopped (ms : List SqsMessage) :
    (ms.flatMap renderOut).count stoppedLine = 0 := by
  rw [List.count_eq_zero]
  intro hmem
  rw [List.mem_flatMap] at hmem
  obtain ⟨m, _, hm⟩ := hmem
  simp [renderOut, stoppedLine] at hm

/-- A well-formed round is one the loop body can read. -/
theorem pollMessages_isSome_of_wf (r : Option Json)
    (h : wellFormedEvent (.response r) = true) : (pollMessages r).isSome := by
  cases r with
  | none => rfl
  | some v =>
    simp only [wellFormedEvent, Bool.or_eq_true, Bool.not_eq_true'] at h
    cases h with
    | inl h => simp [pollMessages, h]
    | inr h =>
      simp only [pollMessages]
      split
      · exact h
      · rfl

/-- Over well-formed rounds the loop never crashes, and it prints the
stopped line exactly once, as its very last output, exactly when it was
interrupted. -/
theorem loopRun_wf (st : Int) (url : String) :
    ∀ (events : List PollEvent) (seen : List String),
      events.all wellFormedEvent = true →
      (loopRun st url seen events).outcome ≠ .crashed
      ∧ ((loopRun st url seen events).outcome = .interrupted →
          (loopRun st url seen events).output.getLast? = some stoppedLine
          ∧ (loopRun st url seen events).output.count stoppedLine = 1)
      ∧ ((loopRun st url seen events).outcome ≠ .interrupted →
          (loopRun st url seen events).output.count stoppedLine = 0) := by
  intro events
  induction events with
  | nil =>
    intro seen _
    refine ⟨by simp [loopRun], ?_, ?_⟩ <;> simp [loopRun]
  | cons e rest ih =>
    intro seen hwf
    rw [List.all_cons, Bool.and_eq_true] at hwf
    obtain ⟨hwf1, hwfR⟩ := hwf
    cases e with
    | interrupt =>
      refine ⟨by simp [loopRun], ?_, ?_⟩ <;> simp [loopRun]
    | response r =>
      have hps := pollMessages_isSome_of_wf r hwf1
      obtain ⟨msgs, hmsgs⟩ := Option.isSome_iff_exists.mp hps
      obtain ⟨ihc, ihi, ihn⟩ := ih (processPoll st seen msgs).1 hwfR
      have hout : (loopRun st url seen (.response r :: rest)).outcome =
          (loopRun st url (processPoll st seen msgs).1 rest).outcome := by
        simp [loopRun, hmsgs]
      have houtp : (loopRun st url seen (.response r :: rest)).output =
          (processPoll st seen msgs).2.flatMap renderOut ++
            (loopRun st url (processPoll st seen msgs).1 rest).output := by
        simp [loopRun, hmsgs]
      refine ⟨by rw [hout]; exact ihc, ?_, ?_⟩
      · intro hi
        rw [hout] at hi
        obtain ⟨hl, hc⟩ := ihi hi
        constructor
        · rw [houtp]
          rw [List.getLast?_append_of_ne_nil]
          · exact hl
          · intro hnil
            rw [hnil] at hl
            simp at hl
        · rw [houtp, List.count_append, renderOut_count_stopped, hc]
      · intro hni
        rw [hout] at hni
        rw [houtp, List.count_append, renderOut_count_stopped, ihn hni]

/-- A seen identifier is displayed nowhere in the rest of the run. -/
theorem runPolls_flatten_blocked (st : Int) (i : String) :
    ∀ (polls : List (List SqsMessage)) (seen : List String), i ∈ seen →
      (runPolls st seen polls).2.flatten.filter (fun d => d.msgId == i) = [] := by
  intro polls
  induction polls with
  | nil => intro seen _; simp [runPolls]
  | cons p rest ih =>
    intro seen hi
    simp only [runPolls, List.flatten_cons, List.filter_append]
    rw [processPoll_blocked st seen p i hi,
      ih (processPoll st seen p).1 (processPoll_seen_mono st seen p i hi)]
    rfl

/-- Across the whole run, an unseen message with a late-enough timestamp
(and no same-identifier sibling) is displayed exactly once if any poll
carries it, and never otherwise. -/
theorem runPolls_flatten_first (st : Int) (m : SqsMessage)
    (hts : st < m.sentTs) :
    ∀ (polls : List (List SqsMessage)) (seen : List String),
      m.msgId ∉ seen →
      (∀ p ∈ polls, ∀ m2 ∈ p, m2.msgId = m.msgId → m2 = m) →
      (runPolls st seen polls).2.flatten.filter (fun d => d.msgId == m.msgId) =
        (if ∃ p ∈ polls, m ∈ p then [m] else []) := by
  intro polls
  induction polls with
  | nil => intro seen _ _; simp [runPolls]
  | cons p rest ih =>
    intro seen hns huniq
    have huniq0 := huniq p (List.mem_cons_self _ _)
    have huniqR : ∀ q ∈ rest, ∀ m2 ∈ q, m2.msgId = m.msgId → m2 = m :=
      fun q hq => huniq q (List.mem_cons_of_mem _ hq)
    simp only [runPolls, List.flatten_cons, List.filter_append]
    rw [(processPoll_first st p m hts seen hns huniq0).1]
    by_cases hmp : m ∈ p
    · have hseen : m.msgId ∈ (processPoll st seen p).1 :=
        (processPoll_first st p m hts seen hns huniq0).2.mpr hmp
      rw [runPolls_flatten_blocked st m.msgId rest _ hseen]
      have : ∃ q ∈ p :: rest, m ∈ q := ⟨p, List.mem_cons_self _ _, hmp⟩
      simp [hmp, this]
    · have hns2 : m.msgId ∉ (processPoll st seen p).1 := fun hmem =>
        hmp ((processPoll_first st p m hts seen hns huniq0).2.mp hmem)
      rw [ih (processPoll st seen p).1 hns2 huniqR]
      have : (∃ q ∈ p :: rest, m ∈ q) ↔ (∃ q ∈ rest, m ∈ q) := by
        constructor
        · rintro ⟨q, hq, hmq⟩
          rcases List.mem_cons.mp hq with rfl | hq2
          · exact absurd hmq hmp
          · exact ⟨q, hq2, hmq⟩
        · rintro ⟨q, hq, hmq⟩
          exact ⟨q, List.mem_cons_of_mem _ hq, hmq⟩
      simp only [hmp, if_false, List.nil_append]
      rw [if_congr this rfl rfl]

/-- Every command the loop issues is the one fixed receive call. -/
theorem loopRun_commands_eq (st : Int) (url : String) :
    ∀ (events : List PollEvent) (seen : List String),
      ∀ c ∈ (loopRun st url seen events).commands,
        c = awsCommand (receiveMessageArgs url) := by
  intro events
  induction events with
  | nil => intro seen c hc; simp [loopRun] at hc
  | cons e rest ih =>
    intro seen c hc
    cases e with
    | interrupt => simp [loopRun] at hc
    | response r =>
      simp only [loopRun] at hc
      cases hpm : pollMessages r with
      | none =>
        rw [hpm] at hc
        simp at hc
        exact hc
      | some msgs =>
        rw [hpm] at hc
        simp only [List.mem_cons] at hc
        rcases hc with rfl | hc2
        · rfl
        · exact ih (processPoll st seen msgs).1 c hc2

/-! ### The claims -/

/-- C1: `shouldDisplay` is true iff the message's sent-timestamp is
strictly greater than the process-start time and its identifier is not in
the seen-set; in particular it is false for every message with
`sentTimestamp <= processStartTime`, regardless of identifier. -/
theorem c1_shouldDisplay_spec (startTime : Int) (seen : List String)
    (m : SqsMessage) :
    (shouldDisplay startTime seen m = true ↔
      startTime < m.sentTs ∧ m.msgId ∉ seen)
    ∧ (m.sentTs ≤ startTime → shouldDisplay startTime seen m = false) := by
  constructor
  · simp [shouldDisplay]
  · intro h
    simp only [shouldDisplay, Bool.and_eq_false_imp]
    intro h2
    rw [decide_eq_true_iff] at h2
    omega

theorem c1_witness :
    shouldDisplay 10 ["a"] ⟨"b", 5, "x"⟩ = false :=
  (c1_shouldDisplay_spec 10 ["a"] ⟨"b", 5, "x"⟩).2 (by decide)

/-- C2: a message with a post-start timestamp, redelivered across any
sequence of polls (always as the same message for its identifier), is
displayed exactly once, on the first poll that carries it: iteration `k`
displays it iff poll `k` is the first containing it, the run's full
display record shows it exactly once as soon as some poll carries it,
and after any earlier poll carried it the display predicate is false
forever for its identifier. -/
theorem c2_display_exactly_once (st : Int) (polls : List (List SqsMessage))
    (m : SqsMessage) (hts : st < m.sentTs)
    (huniq : ∀ p ∈ polls, ∀ m2 ∈ p, m2.msgId = m.msgId → m2 = m) :
    (∀ k, (displaysAt st SEEN polls k).filter (fun d => d.msgId == m.msgId) =
        (if m ∈ pollAt polls k ∧ (∀ j < k, m ∉ pollAt polls j)
         then [m] else []))
    ∧ ((∃ p ∈ polls, m ∈ p) →
        (runPolls st SEEN polls).2.flatten.filter
          (fun d => d.msgId == m.msgId) = [m])
    ∧ (∀ k m2, (∃ j, j < k ∧ m ∈ pollAt polls j) → m2.msgId = m.msgId →
        shouldDisplay st (seenBefore st SEEN polls k) m2 = false) := by
  refine ⟨?_, ?_, ?_⟩
  · exact displaysAt_first st m hts polls SEEN (by simp [SEEN]) huniq
  · intro hex
    rw [runPolls_flatten_first st m hts polls SEEN (by simp [SEEN]) huniq]
    exact if_pos hex
  · intro k m2 hex he
    have hseen := seenBefore_of_earlier st m hts polls SEEN huniq k hex
    rw [← he] at hseen
    simp only [shouldDisplay, Bool.and_eq_false_imp]
    intro _
    simp [hseen]

theorem c2_witness :
    (displaysAt 0 SEEN [[⟨"i", 5, "b"⟩], [⟨"i", 5, "b"⟩]] 0).filter
        (fun d => d.msgId == "i") = [⟨"i", 5, "b"⟩]
    ∧ (displaysAt 0 SEEN [[⟨"i", 5, "b"⟩], [⟨"i", 5, "b"⟩]] 1).filter
        (fun d => d.msgId == "i") = []
    ∧ shouldDisplay 0 (seenBefore 0 SEEN [[⟨"i", 5, "b"⟩], [⟨"i", 5, "b"⟩]] 1)
        ⟨"i", 5, "b"⟩ = false := by
  have h := c2_display_exactly_once 0 [[⟨"i", 5, "b"⟩], [⟨"i", 5, "b"⟩]]
    ⟨"i", 5, "b"⟩ (by decide) (by decide)
  refine ⟨?_, ?_, ?_⟩
  · rw [h.1 0]; decide
  · rw [h.1 1]; decide
  · exact h.2.2 1 ⟨"i", 5, "b"⟩ ⟨0, by decide, by decide⟩ rfl

/-- C9: the seen-set starts empty at launch, no iteration removes an
identifier from it (it grows monotonically through every poll and
through whole runs), and an identifier is in the post-state exactly when
it was in the pre-state or its message was displayed. -/
theorem c9_seen_monotone :
    SEEN = ([] : List String)
    ∧ (∀ (st : Int) (seen : List String) (p : List SqsMessage) (x : String),
        x ∈ seen → x ∈ (processPoll st seen p).1)
    ∧ (∀ (st : Int) (seen : List String) (p : List SqsMessage) (x : String),
        x ∈ (processPoll st seen p).1 ↔
          x ∈ seen ∨ x ∈ (processPoll st seen p).2.map SqsMessage.msgId)
    ∧ (∀ (st : Int) (seen : List String) (polls : List (List SqsMessage))
        (x : String), x ∈ seen → x ∈ (runPolls st seen polls).1)
    ∧ (∀ (st : Int) (seen : List String) (polls : List (List SqsMessage))
        (x : String),
        x ∈ (runPolls st seen polls).1 ↔
          x ∈ seen ∨
            x ∈ (runPolls st seen polls).2.flatten.map SqsMessage.msgId) :=
  ⟨rfl, processPoll_seen_mono, processPoll_seen_iff,
    runPolls_seen_mono, runPolls_seen_iff⟩

theorem c9_witness :
    ("a" : String) ∈ (processPoll 7 ["a"] [⟨"b", 9, "x"⟩]).1
    ∧ ("a" : String) ∈ (runPolls 7 ["a"] [[⟨"b", 9, "x"⟩]]).1 :=
  ⟨c9_seen_monotone.2.1 7 ["a"] [⟨"b", 9, "x"⟩] "a" (by decide),
   c9_seen_monotone.2.2.2.1 7 ["a"] [[⟨"b", 9, "x"⟩]] "a" (by decide)⟩

/-- C3: on a body decoding to an object whose `details` field is a
string, `format_event` renders the object with that field replaced by
the parse of the string when it is valid JSON and kept as the original
literal string otherwise; in particular the two round-trip examples of
the spec. -/
theorem c3_details_expansion :
    (∀ (body s : String) (fields : List (String × Json)),
        json_loads body = some (.obj fields) →
        getField fields "details" = some (.str s) →
        format_event body =
          dumpValue 0 (.obj (match json_loads s with
            | some parsed => setField fields "details" parsed
            | none => fields)))
    ∧ format_event "\x7b\"a\":1,\"details\":\"\x7b\\\"b\\\":2\x7d\"\x7d" =
        "\x7b\n  \"a\": 1,\n  \"details\": \x7b\n    \"b\": 2\n  \x7d\n\x7d"
    ∧ format_event "\x7b\"a\":1,\"details\":\"not-json\"\x7d" =
        "\x7b\n  \"a\": 1,\n  \"details\": \"not-json\"\n\x7d" :=
  ⟨format_event_details, rfl, rfl⟩

theorem c3_witness :
    format_event "\x7b\"a\":1,\"details\":\"not-json\"\x7d" =
      dumpValue 0 (.obj (match json_loads "not-json" with
        | some parsed =>
            setField [("a", Json.num 1), ("details", Json.str "not-json")]
              "details" parsed
        | none => [("a", Json.num 1), ("details", Json.str "not-json")])) :=
  c3_details_expansion.1 "\x7b\"a\":1,\"details\":\"not-json\"\x7d" "not-json"
    [("a", Json.num 1), ("details", Json.str "not-json")] rfl rfl

/-- C4 counterexample: the claim says every input yields non-empty
output, but the empty body decodes to nothing, so the fallback returns
it verbatim and the output is empty. -/
theorem c4_counterexample :
    format_event "" = "" ∧ (format_event "").length = 0 := ⟨rfl, rfl⟩

/-- C4 (amended): `format_event` is total by construction and returns
either the pretty-printed rendering of a JSON value or the original body
string verbatim; the output is non-empty for every non-empty input (on
the empty input the verbatim fallback is the empty string). -/
theorem c4_render_total (body : String) :
    ((∃ j, format_event body = dumpValue 0 j) ∨ format_event body = body)
    ∧ (body ≠ "" → format_event body ≠ "") := by
  refine ⟨format_event_cases body, ?_⟩
  intro hne
  rcases format_event_cases body with ⟨j, hj⟩ | hv
  · rw [hj]; exact dumpValue_ne_empty 0 j
  · rw [hv]; exact hne

theorem c4_witness : format_event "7" ≠ "" :=
  (c4_render_total "7").2 (by decide)

/-- C10: a body decoding to a number, boolean or null makes the
membership test `'details' in obj` raise `TypeError`, so the outer
handler returns the body verbatim; only container or string top-level
values can reach the pretty-printing branch. -/
theorem c10_scalar_verbatim (body : String) (j : Json)
    (hb : json_loads body = some j)
    (hj : j = .null ∨ (∃ b, j = .bool b) ∨ (∃ n, j = .num n)) :
    pyContains j "details" = none ∧ format_event body = body := by
  refine ⟨?_, format_event_scalar body j hb hj⟩
  rcases hj with h | ⟨b, h⟩ | ⟨n, h⟩ <;> subst h <;> rfl

theorem c10_witness :
    pyContains (.num 7) "details" = none ∧ format_event " 7 " = " 7 " :=
  c10_scalar_verbatim " 7 " (.num 7) rfl (Or.inr (Or.inr ⟨7, rfl⟩))

/-- C5: when queue resolution fails (non-zero client exit or undecodable
response), `run_aws` yields `None`, and `main` on a `None` resolution
prints the banner and the error line, exits with status 1, and issues no
receive command — the poll loop is never entered. -/
theorem c5_startup_failure :
    (∀ pr : ProcResult, pr.returncode ≠ 0 ∨ json_loads pr.stdout = none →
        run_aws pr = none)
    ∧ (∀ (st : Int) (events : List PollEvent),
        (pyMain st none events).outcome = .startupFailed
        ∧ (pyMain st none events).exitCode = some 1
        ∧ (pyMain st none events).output = [bannerLine, queueErrLine]
        ∧ (pyMain st none events).commands =
            [awsCommand ["get-queue-url", "--queue-name", QUEUE_NAME]]) := by
  constructor
  · intro pr h
    rcases h with h | h
    · simp [run_aws, h]
    · unfold run_aws
      split
      · exact h
      · rfl
  · intro st events
    exact ⟨rfl, rfl, rfl, rfl⟩

theorem c5_witness :
    run_aws ⟨1, "\x7b\x7d"⟩ = none ∧ run_aws ⟨0, "not-json"⟩ = none
    ∧ (pyMain 0 none []).exitCode = some 1 :=
  ⟨c5_startup_failure.1 ⟨1, "\x7b\x7d"⟩ (Or.inl (by decide)),
   c5_startup_failure.1 ⟨0, "not-json"⟩ (Or.inr rfl),
   (c5_startup_failure.2 0 []).2.1⟩

/-- C6: every enumerated poll-time failure is absence of data, never
fatal: a non-zero client exit or malformed standard output makes
`run_aws` yield `None`; a `None` (or falsy) response contributes no
messages; such a round leaves the state unchanged, prints nothing and
the loop just continues; an undecodable message body is printed
verbatim; an undecodable nested `details` string is kept as-is. -/
theorem c6_poll_failures_nonfatal :
    (∀ pr : ProcResult, pr.returncode ≠ 0 → run_aws pr = none)
    ∧ (∀ pr : ProcResult, json_loads pr.stdout = none → run_aws pr = none)
    ∧ pollMessages none = some []
    ∧ (∀ r : Json, pyTruthy r = false → pollMessages (some r) = some [])
    ∧ (∀ (st : Int) (url : String) (seen : List String)
        (rest : List PollEvent) (r : Option Json), pollMessages r = some [] →
        loopRun st url seen (.response r :: rest) =
          ⟨(loopRun st url seen rest).outcome, (loopRun st url seen rest).seen,
           (loopRun st url seen rest).output,
           awsCommand (receiveMessageArgs url) ::
             (loopRun st url seen rest).commands⟩)
    ∧ (∀ body : String, json_loads body = none → format_event body = body)
    ∧ (∀ (body s : String) (fields : List (String × Json)),
        json_loads body = some (.obj fields) →
        getField fields "details" = some (.str s) → json_loads s = none →
        format_event body = dumpValue 0 (.obj fields)) := by
  refine ⟨?_, ?_, rfl, ?_, ?_, ?_, ?_⟩
  · intro pr h
    simp [run_aws, h]
  · intro pr h
    unfold run_aws
    split
    · exact h
    · rfl
  · intro r h
    simp [pollMessages, h]
  · intro st url seen rest r h
    simp [loopRun, h, processPoll]
  · exact format_event_undecodable
  · intro body s fields h1 h2 h3
    rw [format_event_details body s fields h1 h2, h3]

theorem c6_witness :
    run_aws ⟨2, "[]"⟩ = none
    ∧ run_aws ⟨0, ""⟩ = none
    ∧ pollMessages (some (.obj [])) = some []
    ∧ loopRun 0 "u" [] [.response none] =
        ⟨(loopRun 0 "u" [] []).outcome, (loopRun 0 "u" [] []).seen,
         (loopRun 0 "u" [] []).output,
         awsCommand (receiveMessageArgs "u") :: (loopRun 0 "u" [] []).commands⟩
    ∧ format_event "not-json" = "not-json"
    ∧ format_event "\x7b\"details\":\"not-json\"\x7d" =
        dumpValue 0 (.obj [("details", Json.str "not-json")]) :=
  ⟨c6_poll_failures_nonfatal.1 ⟨2, "[]"⟩ (by decide),
   c6_poll_failures_nonfatal.2.1 ⟨0, ""⟩ rfl,
   c6_poll_failures_nonfatal.2.2.2.1 (.obj []) rfl,
   c6_poll_failures_nonfatal.2.2.2.2.1 0 "u" [] [] none rfl,
   c6_poll_failures_nonfatal.2.2.2.2.2.1 "not-json" rfl,
   c6_poll_failures_nonfatal.2.2.2.2.2.2 "\x7b\"details\":\"not-json\"\x7d"
     "not-json" [("details", Json.str "not-json")] rfl rfl rfl⟩

/-- C8: every command the watch loop issues is the one receive call with
the fixed parameters (up to 10 messages, 5-second wait, visibility
timeout 0, requesting `SentTimestamp`), and across a whole run of `main`
every issued subcommand is `get-queue-url` or `receive-message` — the
watcher never issues a command that removes or mutates queue content. -/
theorem c8_receive_only (st : Int) (url : String) (seen : List String)
    (events : List PollEvent) :
    (∀ cmd ∈ (loopRun st url seen events).commands,
        cmd = awsCommand (receiveMessageArgs url))
    ∧ awsCommand (receiveMessageArgs url) =
        ["awslocal", "sqs", "receive-message", "--queue-url", url,
         "--max-number-of-messages", "10", "--wait-time-seconds", "5",
         "--visibility-timeout", "0", "--attribute-names", "SentTimestamp",
         "--region", "eu-west-2", "--output", "json"]
    ∧ (∀ (resolveResp : Option Json) (st2 : Int),
        ∀ cmd ∈ (pyMain st2 resolveResp events).commands,
          cmd[2]? = some "get-queue-url" ∨ cmd[2]? = some "receive-message") := by
  refine ⟨loopRun_commands_eq st url events seen, rfl, ?_⟩
  intro resolveResp st2 cmd hc
  cases resolveResp with
  | none =>
    simp only [pyMain, List.mem_singleton] at hc
    subst hc
    exact Or.inl rfl
  | some r =>
    by_cases ht : pyTruthy r = true
    · cases hurl : queueUrlOf r with
      | none =>
        simp only [pyMain, ht, if_true, hurl, List.mem_singleton] at hc
        subst hc
        exact Or.inl rfl
      | some u =>
        simp only [pyMain, ht, if_true, hurl, List.mem_cons] at hc
        rcases hc with rfl | hc2
        · exact Or.inl rfl
        · rw [loopRun_commands_eq st2 u events SEEN cmd hc2]
          exact Or.inr rfl
    · simp only [pyMain, ht, Bool.false_eq_true, if_false,
        List.mem_singleton] at hc
      subst hc
      exact Or.inl rfl

theorem c8_witness :
    awsCommand (receiveMessageArgs "Q") =
      ["awslocal", "sqs", "receive-message", "--queue-url", "Q",
       "--max-number-of-messages", "10", "--wait-time-seconds", "5",
       "--visibility-timeout", "0", "--attribute-names", "SentTimestamp",
       "--region", "eu-west-2", "--output", "json"]
    ∧ awsCommand (receiveMessageArgs "Q") =
        (loopRun 0 "Q" [] [.response none]).commands.headD [] := by
  have h := c8_receive_only 0 "Q" [] [.response none]
  refine ⟨h.2.1, ?_⟩
  have hm : (loopRun 0 "Q" [] [.response none]).commands.headD [] ∈
      (loopRun 0 "Q" [] [.response none]).commands := by decide
  exact (h.1 _ hm).symm

/-- C7: over readable responses, an interrupt makes the loop exit
cleanly: the process prints the stopped line exactly once, as its very
last output, and exits with status 0; and besides the interrupt the only
terminating outcome is startup resolution failure (exit 1) — a run never
crashes. -/
theorem c7_interrupt_clean_exit (st : Int) (resolveResp : Option Json)
    (events : List PollEvent)
    (hres : wellFormedResolve resolveResp = true)
    (hev : events.all wellFormedEvent = true) :
    (pyMain st resolveResp events).outcome ≠ .crashed
    ∧ ((pyMain st resolveResp events).outcome = .interrupted →
        (pyMain st resolveResp events).exitCode = some 0
        ∧ (pyMain st resolveResp events).output.getLast? = some stoppedLine
        ∧ (pyMain st resolveResp events).output.count stoppedLine = 1)
    ∧ ((pyMain st resolveResp events).outcome = .startupFailed →
        (pyMain st resolveResp events).exitCode = some 1) := by
  cases resolveResp with
  | none =>
    refine ⟨by simp [pyMain], ?_, fun _ => rfl⟩
    intro h
    simp [pyMain] at h
  | some r =>
    by_cases ht : pyTruthy r = true
    · have hsome : (queueUrlOf r).isSome := by
        simp only [wellFormedResolve, ht, Bool.not_true, Bool.false_or] at hres
        exact hres
      obtain ⟨url, hurl⟩ := Option.isSome_iff_exists.mp hsome
      obtain ⟨h1, h2, h3⟩ := loopRun_wf st url events SEEN hev
      simp only [pyMain, ht, if_true, hurl]
      cases houtc : (loopRun st url SEEN events).outcome with
      | interrupted =>
        obtain ⟨hl, hcnt⟩ := h2 houtc
        refine ⟨by simp [houtc], ?_, ?_⟩
        · intro _
          refine ⟨by simp [houtc], ?_, ?_⟩
          · show ([bannerLine, OutLine.clockLogged BLUE] ++
                (loopRun st url SEEN events).output).getLast? = some stoppedLine
            rw [List.getLast?_append_of_ne_nil]
            · exact hl
            · intro hnil
              rw [hnil] at hl
              simp at hl
          · show ([bannerLine, OutLine.clockLogged BLUE] ++
                (loopRun st url SEEN events).output).count stoppedLine = 1
            rw [List.count_append, hcnt]
            rfl
        · intro hcontra
          simp [houtc] at hcontra
      | crashed => exact absurd houtc h1
      | running =>
        refine ⟨by simp [houtc], ?_, ?_⟩
        · intro hcontra
          simp [houtc] at hcontra
        · intro hcontra
          simp [houtc] at hcontra
    · refine ⟨?_, ?_, fun _ => ?_⟩
      · simp [pyMain, ht]
      · intro h
        simp [pyMain, ht] at h
      · simp [pyMain, ht]

theorem c7_witness :
    (pyMain 0 (some (.obj [("QueueUrl", Json.str "Q")]))
        [.response none, .interrupt]).outcome ≠ .crashed
    ∧ (pyMain 0 (some (.obj [("QueueUrl", Json.str "Q")]))
        [.response none, .interrupt]).exitCode = some 0
    ∧ (pyMain 0 (some (.obj [("QueueUrl", Json.str "Q")]))
        [.response none, .interrupt]).output.getLast? = some stoppedLine
    ∧ (pyMain 0 (some (.obj [("QueueUrl", Json.str "Q")]))
        [.response none, .interrupt]).output.count stoppedLine = 1 := by
  have h := c7_interrupt_clean_exit 0 (some (.obj [("QueueUrl", Json.str "Q")]))
    [.response none, .interrupt] (by decide) (by decide)
  obtain ⟨hi1, hi2, hi3⟩ := h.2.1 (by decide)
  exact ⟨h.1, hi1, hi2, hi3⟩
